import Mathlib

/-!
Verification development for the pesca transaction pipeline.

The repository scrapes bank transaction history, normalizes it into a
canonical `Transaction` record, writes a combined CSV artifact, and
forwards per-account batches to the Actual Budget ledger.

This file gives a shallow embedding of the data-transformation core:
* JavaScript numeric and string primitives used by the code
  (`parseFloat`, `parseInt`, `Math.round`, whitespace collapsing,
  truthiness), idealized over exact rationals with saturation to the
  infinities at the IEEE double overflow threshold: a JavaScript number
  is a `JsNum` (a rational, `+Infinity`, or `-Infinity`); `NaN` appears
  only as the `none` result of a parse;
* the DBS CSV parser (`parseDbsCsv`, `buildDescription`), the Citi
  HTML-table parser (`parseTableRows`), the combined-output writer
  (`writeCombinedRows`), and the Actual sync adapter
  (`convertTransaction`, `groupTransactionsByAccount`,
  `processAccountMapping`, `processTransactionsRun`, `nodeJsMain`).

Stateful/IO behaviour (child processes, streams, exits) is embedded as
explicit data: the line-oriented channel between the Deno and Node halves
of the sync adapter becomes a list of payload values, and the Node main
function becomes a function from those payloads to the list of
`importTransactions` calls it performs plus its exit code.
-/

set_option maxRecDepth 8192

/-- Whitespace class of the JavaScript regular-expression escape `\s` and of
`String.prototype.trim`, restricted to the code points that can occur in the
bank exports handled here (ASCII whitespace plus NBSP and the BOM). -/
def isJsWhitespace (c : Char) : Bool :=
  c = ' ' || c = '\t' || c = '\n' || c = '\r' ||
  c = (Char.ofNat 11) || c = (Char.ofNat 12) ||
  c = (Char.ofNat 0xA0) || c = (Char.ofNat 0xFEFF)

/-- Models `String.prototype.trim`. -/
def jsTrim (s : String) : String :=
  String.mk (((s.toList.dropWhile isJsWhitespace).reverse.dropWhile isJsWhitespace).reverse)

/-- Core of `collapseWs`: the flag records whether the previous character was
whitespace, so each maximal whitespace run contributes exactly one space. -/
def collapseWsAux : Bool → List Char → List Char
  | _, [] => []
  | prevWs, c :: rest =>
    if isJsWhitespace c then
      if prevWs then collapseWsAux true rest
      else ' ' :: collapseWsAux true rest
    else c :: collapseWsAux false rest

/-- Models `str.replace(/\s+/g, " ")`: every maximal run of whitespace is
replaced by a single space (no trimming). -/
def collapseWs (s : String) : String :=
  String.mk (collapseWsAux false s.toList)

/-- Initial-segment test: `leadsWith p l` is true when `p` starts `l`. -/
def leadsWith : List Char → List Char → Bool
  | [], _ => true
  | _ :: _, [] => false
  | p :: ps, c :: cs => p = c && leadsWith ps cs

/-- First index at which the pattern occurs as an initial segment, as in
`String.prototype.indexOf` (`none` models the JavaScript result `-1`). -/
def charsIndexOf (pat : List Char) : List Char → Option Nat
  | [] => if pat.isEmpty then some 0 else none
  | c :: rest =>
    if leadsWith pat (c :: rest) then some 0
    else (charsIndexOf pat rest).map (· + 1)

/-- Models `String.prototype.indexOf`, with `none` for `-1`. -/
def strIndexOf (s pat : String) : Option Nat :=
  charsIndexOf pat.toList s.toList

/-- Models `String.prototype.includes`. -/
def strContains (s pat : String) : Bool :=
  (strIndexOf s pat).isSome

/-- Digit run at the head of a character list, with the remainder. -/
def takeDigits (l : List Char) : List Char × List Char :=
  (l.takeWhile Char.isDigit, l.dropWhile Char.isDigit)

/-- Numeric value of a digit string. -/
def natOfDigits (l : List Char) : Nat :=
  l.foldl (fun a c => a * 10 + (c.toNat - '0'.toNat)) 0

/-- A JavaScript number, idealized over exact rationals: `NaN` is represented
separately (as `none` of `Option JsNum`) because in the embedded code it only
ever arises as the failure result of a numeric parse. -/
inductive JsNum where
  | finite (q : ℚ)
  | posInf
  | negInf
deriving DecidableEq, Repr

/-- JavaScript truthiness of a number (`0` is falsy, everything else truthy;
`-0` coincides with `0` in the rational idealization, and both are falsy). -/
def JsNum.truthy : JsNum → Bool
  | .finite q => decide (q ≠ 0)
  | _ => true

/-- Models the JavaScript expression `a || b` on numbers that are not `NaN`. -/
def JsNum.jsOr (a b : JsNum) : JsNum :=
  if a.truthy then a else b

/-- Nonnegativity, `0 <= n` in JavaScript comparison terms. -/
def JsNum.nonneg : JsNum → Bool
  | .finite q => decide (0 ≤ q)
  | .posInf => true
  | .negInf => false

/-- Positivity, `0 < n` in JavaScript comparison terms. -/
def JsNum.gtZero : JsNum → Bool
  | .finite q => decide (0 < q)
  | .posInf => true
  | .negInf => false

/-- Models `Math.abs`. -/
def JsNum.abs : JsNum → JsNum
  | .finite q => .finite |q|
  | _ => .posInf

/-- True on finite values, false on the infinities. -/
def JsNum.isFinite : JsNum → Bool
  | .finite _ => true
  | _ => false

/-- Multiplication by a nonzero real constant (the code only ever scales by
`100`, `1` and `-1`, so the `c = 0` indeterminate case never occurs). -/
def JsNum.scale (c : ℚ) : JsNum → JsNum
  | .finite q => .finite (q * c)
  | .posInf => if c < 0 then .negInf else .posInf
  | .negInf => if c < 0 then .posInf else .negInf

/-- Floor of a rational, computed as floor division of the canonical
numerator by the (positive) denominator. -/
def ratFloor (q : ℚ) : ℤ :=
  q.num.fdiv (q.den : ℤ)

/-- Models `Math.round` (round half toward positive infinity,
`round x = floor (x + 1/2)` away from the infinities). -/
def JsNum.round : JsNum → JsNum
  | .finite q => .finite ((ratFloor (q + 1/2) : ℤ) : ℚ)
  | x => x

/-- Decimal-literal tail of ECMAScript `parseFloat`: longest valid
`DecimalDigits [. DecimalDigits] [ExponentPart]` or `. DecimalDigits
[ExponentPart]` at the head of the input, with its rational value; `none`
when no digit is found (the `NaN` case).  An `e`/`E` not followed by digits
is not part of the literal, matching the longest-valid-prefix rule. -/
def parseDecimalValue (cs : List Char) : Option ℚ :=
  let (intDigits, r1) := takeDigits cs
  let (fracDigits, r2) :=
    match r1 with
    | '.' :: t => takeDigits t
    | _ => ([], r1)
  if intDigits.isEmpty && fracDigits.isEmpty then none
  else
    let mant : ℚ := (natOfDigits intDigits : ℚ) +
      (natOfDigits fracDigits : ℚ) / ((10 ^ fracDigits.length : ℕ) : ℚ)
    let exp : ℤ :=
      match r2 with
      | 'e' :: t | 'E' :: t =>
        let (esign, t') :=
          match t with
          | '-' :: u => ((-1 : ℤ), u)
          | '+' :: u => ((1 : ℤ), u)
          | _ => ((1 : ℤ), t)
        let (eds, _) := takeDigits t'
        if eds.isEmpty then 0 else esign * (natOfDigits eds : ℤ)
      | _ => 0
    some (if 0 ≤ exp then mant * ((10 ^ exp.toNat : ℕ) : ℚ)
      else mant / ((10 ^ (-exp).toNat : ℕ) : ℚ))

/-- Whether the head character is a minus sign. -/
def hasNegSign : List Char → Bool
  | '-' :: _ => true
  | _ => false

/-- Drop one leading sign character, when present. -/
def stripLeadingSign : List Char → List Char
  | '-' :: t => t
  | '+' :: t => t
  | l => l

/-- The IEEE 754 binary64 overflow threshold `2 ^ 1024 - 2 ^ 970`, written as
an integer literal: the least positive real that round-to-nearest-ties-to-even
carries to infinity (the largest finite double being `2 ^ 1024 - 2 ^ 971`).
ECMAScript string-to-number conversion returns `Infinity` for any literal
whose mathematical value is at least this bound. -/
def jsOverflowBound : ℚ :=
  179769313486231580793728971405303415079934132710037826936173778980444968292764750946649017977587207096330286416692887910946555547851940402630657488671505820681908902000708383676273854845817711531764475730270069855571366959622842914819860834936475292719074168444365510704342711559699508093042880177904174497792

/-- Models ECMAScript `parseFloat`: skip leading whitespace, read an optional
sign, then either an `Infinity` literal or a decimal literal; `none` is `NaN`.
A decimal literal whose magnitude reaches the double overflow threshold
`jsOverflowBound` saturates to the signed infinity, as the IEEE conversion
does (for example `parseFloat("1e999")` is `Infinity`); in-range finite
values are idealized as exact rationals (no binary rounding). -/
def jsParseFloat (s : String) : Option JsNum :=
  let cs := s.toList.dropWhile isJsWhitespace
  let neg := hasNegSign cs
  let cs' := stripLeadingSign cs
  if leadsWith "Infinity".toList cs' then
    some (if neg then .negInf else .posInf)
  else
    match parseDecimalValue cs' with
    | none => none
    | some q =>
      if jsOverflowBound ≤ q then some (if neg then .negInf else .posInf)
      else some (.finite (if neg then -q else q))

/-- The comma preprocessing of `parseFloatSafely`: `floatString.replace(/,/g, "")`
when the flag is set. -/
def stripCommas (floatString : String) (removeCommas : Bool) : String :=
  if removeCommas then String.mk (floatString.toList.filter (fun c => c ≠ ',')) else floatString

/-- Embeds `parseFloatSafely` from `src/unnamed/part_001`: optionally delete
all commas, `parseFloat`, and turn a `NaN` result into `0`. -/
def parseFloatSafely (floatString : String) (removeCommas : Bool := false) : JsNum :=
  match jsParseFloat (stripCommas floatString removeCommas) with
  | none => .finite 0
  | some v => v

/-- Models ECMAScript `parseInt` with radix 10 as it is used on date fields:
skip whitespace, optional sign, longest leading digit run; `none` is `NaN`.
(The hex autodetection of `parseInt` cannot trigger on `DD/MM/YYYY` parts.) -/
def jsParseInt (s : String) : Option ℤ :=
  let cs := s.toList.dropWhile isJsWhitespace
  let (neg, cs') :=
    match cs with
    | '-' :: t => (true, t)
    | '+' :: t => (false, t)
    | _ => (false, cs)
  let (ds, _) := takeDigits cs'
  if ds.isEmpty then none
  else some (if neg then -(natOfDigits ds : ℤ) else (natOfDigits ds : ℤ))

/-- Calendar date; the model of `Temporal.PlainDate`. -/
structure PlainDate where
  year : ℤ
  month : ℕ
  day : ℕ
deriving DecidableEq, Repr

/-- Models `Temporal.PlainDate.compare` (standard calendar-date comparison,
`-1`/`0`/`1`). -/
def dateCompare (a b : PlainDate) : ℤ :=
  if a.year < b.year then -1 else if b.year < a.year then 1
  else if a.month < b.month then -1 else if b.month < a.month then 1
  else if a.day < b.day then -1 else if b.day < a.day then 1 else 0

/-- Left-pad with zeros, as `Temporal.PlainDate.prototype.toString` does for
the year, month and day components. -/
def padZeros (w : ℕ) (s : String) : String :=
  String.mk (List.replicate (w - s.length) '0') ++ s

/-- ISO 8601 rendering of a date (`YYYY-MM-DD`), the model of
`Temporal.PlainDate.prototype.toString` for the dates arising here. -/
def PlainDate.isoString (d : PlainDate) : String :=
  padZeros 4 (toString d.year) ++ "-" ++ padZeros 2 (toString d.month) ++ "-" ++
    padZeros 2 (toString d.day)

/-- Embeds the canonical `Transaction` class of `src/lib/transaction.ts`. -/
structure Transaction where
  account : String
  date : PlainDate
  description : String
  absoluteAmount : JsNum
  isDebit : Bool
  isPending : Bool
deriving DecidableEq, Repr

/-- The derived `amount` getter of `Transaction`
(`(this.isDebit ? 1 : -1) * this.absoluteAmount`, debit positive). -/
def Transaction.amount (t : Transaction) : JsNum :=
  t.absoluteAmount.scale (if t.isDebit then 1 else -1)

/-- The comparator used by `writeCombinedOutput` (and `writeSyncPlaceholder`):
`Temporal.PlainDate.compare(a.date, b.date)`, viewed as the nonstrict relation
"the comparator does not order `b` strictly before `a`". -/
def txDateLe (a b : Transaction) : Prop := dateCompare a.date b.date ≤ 0

instance : DecidableRel txDateLe :=
  fun a b => inferInstanceAs (Decidable (dateCompare a.date b.date ≤ 0))

instance : IsTotal Transaction txDateLe :=
  ⟨fun a b => by
    have key : ∀ x y : PlainDate, dateCompare x y ≤ 0 ↔
        (x.year < y.year ∨ (x.year = y.year ∧
          (x.month < y.month ∨ (x.month = y.month ∧ x.day ≤ y.day)))) := by
      intro x y; unfold dateCompare; split_ifs <;> omega
    unfold txDateLe
    rw [key, key]
    omega⟩

instance : IsTrans Transaction txDateLe :=
  ⟨fun a b c hab hbc => by
    have key : ∀ x y : PlainDate, dateCompare x y ≤ 0 ↔
        (x.year < y.year ∨ (x.year = y.year ∧
          (x.month < y.month ∨ (x.month = y.month ∧ x.day ≤ y.day)))) := by
      intro x y; unfold dateCompare; split_ifs <;> omega
    unfold txDateLe at hab hbc ⊢
    rw [key] at hab hbc ⊢
    omega⟩

/-- One row of the combined `transactions.csv` artifact, as passed to
`stringifyCsv` by `writeCombinedOutput`. -/
structure CombinedRow where
  date : String
  description : String
  amount : JsNum
  account : String
  status : String
deriving DecidableEq, Repr

/-- The per-transaction row built inside `writeCombinedOutput`. -/
def toCombinedRow (t : Transaction) : CombinedRow :=
  { date := t.date.isoString
    description := t.description
    amount := t.amount
    account := t.account
    status := if t.isPending then "pending" else "cleared" }

/-- Embeds `writeCombinedOutput` (src/lib/drivers/dbs.ts driver index file):
concatenate all driver outputs, return `none` (no file written) when empty,
otherwise sort with the comparator
`(a, b) => Temporal.PlainDate.compare(a.date, b.date)` and render the rows.
`Array.prototype.sort` is required to be stable, and a stable sort under a
total preorder comparator is unique, so it is modeled by insertion sort. -/
def writeCombinedRows (outputs : List (List Transaction)) : Option (List CombinedRow) :=
  let transactions := outputs.flatten
  if transactions.isEmpty then none
  else some ((List.insertionSort txDateLe transactions).map toCombinedRow)

/-- Tail-recursive state machine for RFC 4180 delimited text, modeling
`parse` from `@std/csv` with default options on well-formed input: fields
separated by commas, records by LF or CRLF, double-quoted fields with `""`
escapes, and fully blank lines skipped (as in the Go reader that
implementation follows).  Arguments: in-quotes flag, line-started flag,
remaining input, current field (reversed), current record (reversed),
emitted records (reversed). -/
def parseCsvAux : Bool → Bool → List Char → List Char → List String → List (List String) →
    List (List String)
  | _, started, [], field, rec, recs =>
    if started then (((String.mk field.reverse) :: rec).reverse :: recs).reverse
    else recs.reverse
  | true, _, '"' :: '"' :: rest, field, rec, recs =>
    parseCsvAux true true rest ('"' :: field) rec recs
  | true, _, '"' :: rest, field, rec, recs =>
    parseCsvAux false true rest field rec recs
  | true, _, c :: rest, field, rec, recs =>
    parseCsvAux true true rest (c :: field) rec recs
  | false, _, ',' :: rest, field, rec, recs =>
    parseCsvAux false true rest [] ((String.mk field.reverse) :: rec) recs
  | false, started, '\r' :: '\n' :: rest, field, rec, recs =>
    if started then
      parseCsvAux false false rest [] [] (((String.mk field.reverse) :: rec).reverse :: recs)
    else parseCsvAux false false rest [] [] recs
  | false, started, '\n' :: rest, field, rec, recs =>
    if started then
      parseCsvAux false false rest [] [] (((String.mk field.reverse) :: rec).reverse :: recs)
    else parseCsvAux false false rest [] [] recs
  | false, _, '"' :: rest, field, rec, recs =>
    if field.isEmpty then parseCsvAux true true rest field rec recs
    else parseCsvAux false true rest ('"' :: field) rec recs
  | false, _, c :: rest, field, rec, recs =>
    parseCsvAux false true rest (c :: field) rec recs

/-- Models `parse` from `@std/csv` (see `parseCsvAux`). -/
def parseCsvString (s : String) : List (List String) :=
  parseCsvAux false false s.toList [] [] []

/-- Embeds `buildDescription` from `parseDbsCsv` (src/lib/drivers/dbs.ts), as
a function of the four reference cells `row[ref0] .. row[ref3]`: the primary
cell is pushed whenever it differs from the sentinel `"ITR"` (even when
empty), the other three whenever non-empty; if nothing was pushed the primary
cell is returned verbatim, otherwise the parts are joined with spaces and
whitespace runs collapsed. -/
def buildDescription (r0 r1 r2 r3 : String) : String :=
  let parts : List String :=
    (if r0 ≠ "ITR" then [r0] else []) ++
    (if r1 ≠ "" then [r1] else []) ++
    (if r2 ≠ "" then [r2] else []) ++
    (if r3 ≠ "" then [r3] else [])
  if parts.isEmpty then r0
  else collapseWs (String.intercalate " " parts)

/-- The description builder exactly as the specification words it: the
concatenation, in priority order and separated by single spaces with
redundant whitespace collapsed, of exactly the non-empty reference
sub-fields, skipping the sentinel `"ITR"`; if that concatenation is empty,
the primary reference field verbatim. -/
def buildDescriptionClaim (r0 r1 r2 r3 : String) : String :=
  let parts : List String := [r0, r1, r2, r3].filter (fun s => s ≠ "" && s ≠ "ITR")
  if parts.isEmpty then r0
  else collapseWs (String.intercalate " " parts)

/-- The description builder as the code actually behaves, worded as a
specification: join (single spaces, whitespace collapsed) of the primary
field whenever it differs from the sentinel `"ITR"` (even when empty) and of
each remaining field whenever non-empty (even when equal to the sentinel);
when the primary field is the sentinel and the others are empty, the primary
field verbatim. -/
def buildDescriptionAmended (r0 r1 r2 r3 : String) : String :=
  if r0 = "ITR" && r1 = "" && r2 = "" && r3 = "" then r0
  else
    collapseWs (String.intercalate " "
      ((if r0 = "ITR" then [] else [r0]) ++
       (if r1 = "" then [] else [r1]) ++
       (if r2 = "" then [] else [r2]) ++
       (if r3 = "" then [] else [r3])))

/-- Value of `row[i]` for a resolved column index: `none` models a column
name `indexOf` did not find (JavaScript `-1`), and an in-range default models
reading past the row's end (`undefined`).  At every use site of
`parseDbsCsv` the `undefined` cell behaves exactly like `""` (falsy in the
truthiness tests, `Array.prototype.join` renders it as the empty string, and
`parseFloat(undefined)` is `NaN` exactly like `parseFloat("")`), so the
missing cell is modeled as `""`. -/
def cellAt (row : List String) : Option ℕ → String
  | none => ""
  | some i => row.getD i ""

/-- The operative amount of one `parseDbsCsv` data row:
`debitAmount || creditAmount`, each one `parseFloatSafely` of its cell. -/
def dbsRowAmount (idxCredit idxDebit : Option ℕ) (cells : List String) : JsNum :=
  (parseFloatSafely (cellAt cells idxDebit) false).jsOr
    (parseFloatSafely (cellAt cells idxCredit) false)

/-- The `Transaction` built from one `parseDbsCsv` data row (cells trimmed,
date parsed, description built, amount and debit flag from the amount
cells).  `jsDateSg` abstracts the implementation-defined composition
`new Date(cells[0]).toTemporalInstant().toZonedDateTimeISO("Asia/Singapore").toPlainDate()`;
no claim in this development depends on the date value. -/
def dbsRowTransaction (jsDateSg : String → PlainDate) (account : String)
    (ref0 ref1 ref2 ref3 idxCredit idxDebit : Option ℕ) (row : List String) :
    Transaction :=
  let cells := row.map jsTrim
  { account := account
    date := jsDateSg (cells.getD 0 "")
    description := buildDescription (cellAt cells ref0) (cellAt cells ref1)
      (cellAt cells ref2) (cellAt cells ref3)
    absoluteAmount := dbsRowAmount idxCredit idxDebit cells
    isDebit := (parseFloatSafely (cellAt cells idxDebit) false).gtZero
    isPending := false }

/-- Embeds `parseDbsCsv` (src/lib/drivers/dbs.ts): check the signature
string, split the preamble (for the account name) from the table at the
`"Transaction Date,"` marker, parse the table as delimited text, resolve the
reference and amount columns by header-name lookup (two sub-formats,
distinguished by the presence of `"Transaction Ref1"`), and build the
transactions in reverse row order (`unshift`). -/
def parseDbsCsv (jsDateSg : String → PlainDate) (contents : String) :
    Except String (List Transaction) :=
  if ¬ strContains contents "Account Details For:" then .error "Invalid CSV"
  else
    let startN : ℕ := (strIndexOf contents "Transaction Date,").getD 0
    let head := (jsTrim (String.mk (contents.toList.take startN))).splitOn "\n"
    let account := ((head.getD 0 "").splitOn ",").getD 1 ""
    let body := jsTrim (String.mk (contents.toList.drop startN))
    match parseCsvString body with
    | [] => .error "Invalid CSV"
    | headerRow :: rows =>
      let isPOSB := headerRow.contains "Transaction Ref1"
      let ref0 := headerRow.findIdx? (· == if isPOSB then "Reference" else "Statement Code")
      let ref1 := headerRow.findIdx? (· == if isPOSB then "Transaction Ref1" else "Client Reference")
      let ref2 := headerRow.findIdx? (· == if isPOSB then "Transaction Ref2" else "Additional Reference")
      let ref3 := headerRow.findIdx? (· == if isPOSB then "Transaction Ref3" else "Misc Reference")
      let idxCredit := headerRow.findIdx? (· == "Credit Amount")
      let idxDebit := headerRow.findIdx? (· == "Debit Amount")
      .ok ((rows.map
        (dbsRowTransaction jsDateSg account ref0 ref1 ref2 ref3 idxCredit idxDebit)).reverse)

/-- Output of the `parseRow` helper of `parseTable` (src/lib/drivers/citi.ts):
the masked card number extracted from the row's class attribute, the four
data-cell texts (date, remarks, debit, credit — the sort-text spans and the
leading marker column having been removed), and `"pending"` or `""` from the
pending marker class.  `parseTable` is driven by a DOM query; its per-row
string processing is embedded over this record. -/
structure ParsedRow where
  maskedPAN : String
  rawDate : String
  remarks : String
  rawDebit : String
  rawCredit : String
  pending : String
deriving DecidableEq, Repr

/-- Drop the first comma of a string (`str.replace(",", "")` with a string
pattern replaces only the first occurrence). -/
def removeFirstComma : List Char → List Char
  | [] => []
  | c :: r => if c = ',' then r else c :: removeFirstComma r

/-- Embeds `parseNumber` from `parseTable`: strip the 4-character currency marker
(`"SGD "`) and the first comma. -/
def parseNumber (str : String) : String :=
  String.mk (removeFirstComma (str.toList.drop 4))

/-- The `amountString` of a `parseTable` row: `credit || debit`, where
`debit = "-" + parseNumber(rawDebit)` and `credit = parseNumber(rawCredit)`. -/
def tableAmountString (r : ParsedRow) : String :=
  let debit := "-" ++ parseNumber r.rawDebit
  let credit := parseNumber r.rawCredit
  if credit ≠ "" then credit else debit

/-- Models `maskedPAN.substring(maskedPAN.length - 4)` (clamped at 0). -/
def lastChars (n : ℕ) (s : String) : String :=
  String.mk (s.toList.drop (s.length - n))

/-- Number of days in a month of the proleptic Gregorian calendar. -/
def daysInMonth (y m : ℤ) : ℤ :=
  if m = 2 then (if y % 4 = 0 ∧ (y % 100 ≠ 0 ∨ y % 400 = 0) then 29 else 28)
  else if m = 4 ∨ m = 6 ∨ m = 9 ∨ m = 11 then 30 else 31

/-- Validity of a year-month-day triple, as enforced by the
`Temporal.PlainDate` constructor (which throws a `RangeError` otherwise). -/
def isValidYmd (y m d : ℤ) : Bool :=
  decide (1 ≤ m ∧ m ≤ 12 ∧ 1 ≤ d ∧ d ≤ daysInMonth y m)

/-- The date construction of `parseTable`: split `rawDate` on `/` into
`[d, m, y]`, `parseInt` each part, and `new Temporal.PlainDate(y, m, d)`;
a `NaN` part or an out-of-range component throws (`Except.error`). -/
def tablePlainDate (rawDate : String) : Except String PlainDate :=
  let parts := rawDate.splitOn "/"
  match jsParseInt (parts.getD 2 ""), jsParseInt (parts.getD 1 ""),
      jsParseInt (parts.getD 0 "") with
  | some y, some m, some d =>
    if isValidYmd y m d then .ok ⟨y, m.toNat, d.toNat⟩
    else .error "RangeError: invalid date"
  | _, _, _ => .error "RangeError: invalid date"

/-- The delimited-text re-serialization row pushed for a settled
`parseTable` row: `[rawDate, remarks, amountString, "", maskedPAN]`. -/
def tableCsvRow (r : ParsedRow) : List String :=
  [r.rawDate, r.remarks, tableAmountString r, "", r.maskedPAN]

/-- The `Transaction` constructed from a kept `parseTable` row. -/
def tableTransaction (r : ParsedRow) (date : PlainDate) : Transaction :=
  { account := "Citi " ++ lastChars 4 r.maskedPAN
    date := date
    description := r.remarks
    absoluteAmount := (parseFloatSafely (tableAmountString r) false).abs
    isDebit := leadsWith ['-'] (tableAmountString r).toList
    isPending := r.pending ≠ "" }

/-- Embeds the row loop of `parseTable` (src/lib/drivers/citi.ts): rows whose
date cell is empty are skipped entirely; each kept settled row contributes a
re-serialization row (in document order, pending rows excluded); every kept
row contributes a `Transaction` (`unshift`, hence reverse document order);
an invalid date throws out of the DOM iteration and aborts the parse. -/
def parseTableRows : List ParsedRow → Except String (List (List String) × List Transaction)
  | [] => .ok ([], [])
  | r :: rest =>
    if r.rawDate = "" then parseTableRows rest
    else
      match tablePlainDate r.rawDate with
      | .error e => .error e
      | .ok date =>
        match parseTableRows rest with
        | .error e => .error e
        | .ok (csvRows, transactions) =>
          .ok ((if r.pending = "" then [tableCsvRow r] else []) ++ csvRows,
            transactions ++ [tableTransaction r date])

/-- Embeds the `ActualTransaction` record shape sent to the ledger
(src/unnamed/part_000). -/
structure ActualTransaction where
  date : String
  amount : JsNum
  payee : String
  imported_payee : String
  notes : String
  cleared : Bool
deriving DecidableEq, Repr

/-- Embeds `convertTransaction` (src/unnamed/part_000):
`sign = isDebit ? -1 : 1`, `amount = Math.round(absoluteAmount * 100) * sign`,
`cleared = !isPending`, and the description copied to all three text fields. -/
def convertTransaction (transaction : Transaction) : ActualTransaction :=
  let sign : ℚ := if transaction.isDebit then -1 else 1
  { date := transaction.date.isoString
    amount := ((transaction.absoluteAmount.scale 100).round).scale sign
    notes := transaction.description
    imported_payee := transaction.description
    payee := transaction.description
    cleared := !transaction.isPending }

/-- Association list with JavaScript `Map` semantics: `set` replaces the
value of an existing key in place and appends new keys in insertion order. -/
def jsMapSet (m : List (String × α)) (k : String) (v : α) : List (String × α) :=
  match m with
  | [] => [(k, v)]
  | (k', v') :: rest =>
    if k' = k then (k', v) :: rest else (k', v') :: jsMapSet rest k v

/-- Models `Map.prototype.get` (`none` for `undefined`). -/
def jsMapGet (m : List (String × α)) (k : String) : Option α :=
  match m with
  | [] => none
  | (k', v) :: rest => if k' = k then some v else jsMapGet rest k

/-- First-occurrence deduplication with an accumulator of seen keys. -/
def dedupKeysAux (seen : List String) : List String → List String
  | [] => []
  | k :: rest =>
    if k ∈ seen then dedupKeysAux seen rest
    else k :: dedupKeysAux (k :: seen) rest

/-- Key list of a JavaScript object (`Object.keys`): first-occurrence order;
a `Record<string, string>` cannot hold a key twice, so duplicates in the
association-list model are collapsed. -/
def jsObjectKeys (m : List (String × String)) : List String :=
  dedupKeysAux [] (m.map Prod.fst)

/-- The first loop of `groupTransactionsByAccount`: seed the map with an
empty list per account name. -/
def groupInit (accountNames : List String) : List (String × List Transaction) :=
  accountNames.foldl (fun m n => jsMapSet m n ([] : List Transaction)) []

/-- The body of the second loop of `groupTransactionsByAccount`: push the
transaction onto its account's list when the account is in the map. -/
def groupStep (m : List (String × List Transaction)) (t : Transaction) :
    List (String × List Transaction) :=
  match jsMapGet m t.account with
  | some l => jsMapSet m t.account (l.concat t)
  | none => m

/-- Embeds `groupTransactionsByAccount` (src/unnamed/part_000): seed the map
with an empty list per account name, then push each transaction onto its
account's list when the account is present
(`// else the account is not in scope`). -/
def groupTransactionsByAccount (accountNames : List String)
    (transactions : List Transaction) : List (String × List Transaction) :=
  transactions.foldl groupStep (groupInit accountNames)

/-- One payload line of the line-oriented channel between the Deno side and
the Node child process (`ActualAccountTransactions`). -/
structure ActualAccountTransactions where
  account : String
  transactions : List ActualTransaction
deriving DecidableEq, Repr

/-- The payload lines written by `importTransactions` (Deno side,
src/unnamed/part_000) to the child process: one line per configured account
name, in account-mapping key order, each carrying the converted transactions
of that account (possibly the empty list). -/
def importTransactionsLines (accountMapping : List (String × String))
    (transactions : List Transaction) : List ActualAccountTransactions :=
  (groupTransactionsByAccount (jsObjectKeys accountMapping) transactions).map
    (fun p => { account := p.1, transactions := p.2.map convertTransaction })

/-- Result of one external `api.importTransactions` call: a resolved value
(whose contents the code only logs via `console.dir`) or a rejection
(a thrown error). -/
inductive ImportOutcome where
  | ok (hasResults : Bool)
  | throws (message : String)
deriving DecidableEq, Repr

/-- Whether the call rejected. -/
def ImportOutcome.isThrows : ImportOutcome → Bool
  | .throws _ => true
  | .ok _ => false

/-- Observable outcome of the Node-side run: the `api.importTransactions`
calls actually performed (ledger account id and records, in order) and the
process exit code. -/
structure RunResult where
  calls : List (String × List ActualTransaction)
  exitCode : ℕ
deriving DecidableEq, Repr

/-- Embeds `processTransactions` (src/unnamed/part_000) together with the
try/catch of `nodeJsMain` around it: payload lines are processed in order; a
line whose account name does not resolve to a truthy id is skipped; a
resolved account is imported; a rejected import call aborts the loop through
the catch block and the process exits 1; when every line is processed the
process exits 0.  A failure reported inside a resolved result is only
logged and does not influence the exit code. -/
def processTransactionsRun (accountNameToId : String → Option String)
    (apiImport : String → List ActualTransaction → ImportOutcome) :
    List ActualAccountTransactions → RunResult
  | [] => { calls := [], exitCode := 0 }
  | line :: rest =>
    match accountNameToId line.account with
    | none => processTransactionsRun accountNameToId apiImport rest
    | some accountId =>
      if accountId = "" then processTransactionsRun accountNameToId apiImport rest
      else
        match apiImport accountId line.transactions with
        | .throws _ => { calls := [(accountId, line.transactions)], exitCode := 1 }
        | .ok _ =>
          let r := processTransactionsRun accountNameToId apiImport rest
          { calls := (accountId, line.transactions) :: r.calls, exitCode := r.exitCode }

/-- Models `getAccounts` (Node side): the ledger's `(name, id)` account list
folded into a `Map` keyed by account name. -/
def buildAccountsMap (accounts : List (String × String)) : List (String × String) :=
  accounts.foldl (fun m p => jsMapSet m p.1 p.2) []

/-- Loop of `processAccountMapping`: resolve each `source -> destinationName`
entry against the ledger's account map, throwing on the first destination
name that does not exist. -/
def processAccountMappingAux (availableAccounts : List (String × String)) :
    List (String × String) → List (String × String) →
    Except String (List (String × String))
  | acc, [] => .ok acc
  | acc, (source, destination) :: rest =>
    match jsMapGet availableAccounts destination with
    | some accountId =>
      processAccountMappingAux availableAccounts (jsMapSet acc source accountId) rest
    | none => .error ("Destination account " ++ destination ++ " does not exist.")

/-- Embeds `processAccountMapping` (src/unnamed/part_000). -/
def processAccountMapping (accounts : List (String × String))
    (accountMapping : List (String × String)) :
    Except String (List (String × String)) :=
  processAccountMappingAux (buildAccountsMap accounts) [] accountMapping

/-- Embeds `nodeJsMain` (src/unnamed/part_000): the account mapping is
resolved first — a failure there exits 1 with no import call performed —
and only then are the payload lines processed. -/
def nodeJsMain (accounts : List (String × String))
    (accountMapping : List (String × String))
    (apiImport : String → List ActualTransaction → ImportOutcome)
    (lines : List ActualAccountTransactions) : RunResult :=
  match processAccountMapping accounts accountMapping with
  | .error _ => { calls := [], exitCode := 1 }
  | .ok accountIdMapping =>
    processTransactionsRun (fun name => jsMapGet accountIdMapping name) apiImport lines

/-- End-to-end model of one ledger sync: the Deno side groups and converts
the batch into payload lines, the Node side resolves the mapping and
performs the import calls. -/
def actualSyncRun (accounts : List (String × String))
    (accountMapping : List (String × String))
    (transactions : List Transaction)
    (apiImport : String → List ActualTransaction → ImportOutcome) : RunResult :=
  nodeJsMain accounts accountMapping apiImport
    (importTransactionsLines accountMapping transactions)

deriving instance DecidableEq for Except

/-! ## Helper lemmas about the JavaScript `Map` model and grouping -/

theorem jsMapGet_jsMapSet {α : Type} (m : List (String × α)) (k n : String) (v : α) :
    jsMapGet (jsMapSet m k v) n = if n = k then some v else jsMapGet m n := by
  induction m with
  | nil =>
    by_cases h : n = k
    · subst h; simp [jsMapSet, jsMapGet]
    · have h' : ¬ k = n := fun h' => h h'.symm
      simp [jsMapSet, jsMapGet, h, h']
  | cons p rest ih =>
    obtain ⟨k', v'⟩ := p
    by_cases h1 : k' = k
    · subst h1
      by_cases h2 : k' = n
      · subst h2; simp [jsMapSet, jsMapGet]
      · have h2' : ¬ n = k' := fun h' => h2 h'.symm
        simp [jsMapSet, jsMapGet, h2, h2']
    · by_cases h2 : k' = n
      · subst h2
        have h1' : ¬ k' = k := h1
        simp [jsMapSet, jsMapGet, h1']
      · have h2' : ¬ n = k' := fun h' => h2 h'.symm
        simp [jsMapSet, jsMapGet, h1, h2, h2', ih]

theorem mem_of_jsMapGet {α : Type} {m : List (String × α)} {n : String} {v : α}
    (h : jsMapGet m n = some v) : (n, v) ∈ m := by
  induction m with
  | nil => simp [jsMapGet] at h
  | cons p rest ih =>
    obtain ⟨k', v'⟩ := p
    simp only [jsMapGet] at h
    split_ifs at h with h1
    · subst h1
      injection h with h
      simp [h]
    · exact List.mem_cons_of_mem _ (ih h)

theorem keys_jsMapSet {α : Type} (m : List (String × α)) (k : String) (v : α) :
    (jsMapSet m k v).map Prod.fst =
      if k ∈ m.map Prod.fst then m.map Prod.fst else m.map Prod.fst ++ [k] := by
  induction m with
  | nil => simp [jsMapSet]
  | cons p rest ih =>
    obtain ⟨k', v'⟩ := p
    by_cases h1 : k' = k
    · subst h1
      simp [jsMapSet]
    · have h1' : ¬ k = k' := fun h' => h1 h'.symm
      by_cases h2 : k ∈ rest.map Prod.fst
      · simp [jsMapSet, h1, ih, h2, h1']
      · simp [jsMapSet, h1, ih, h2, h1']

theorem jsMapGet_eq_none {α : Type} {m : List (String × α)} {n : String} :
    jsMapGet m n = none ↔ n ∉ m.map Prod.fst := by
  induction m with
  | nil => simp [jsMapGet]
  | cons p rest ih =>
    obtain ⟨k', v'⟩ := p
    by_cases h1 : k' = n
    · subst h1; simp [jsMapGet]
    · have h1' : ¬ n = k' := fun h' => h1 h'.symm
      simp [jsMapGet, h1, h1', ih]

theorem jsMapGet_of_mem_nodup {α : Type} {m : List (String × α)} {n : String} {v : α}
    (hnd : (m.map Prod.fst).Nodup) (hmem : (n, v) ∈ m) : jsMapGet m n = some v := by
  induction m with
  | nil => simp at hmem
  | cons p rest ih =>
    obtain ⟨k', v'⟩ := p
    simp only [List.map_cons, List.nodup_cons] at hnd
    rcases List.mem_cons.mp hmem with heq | htail
    · cases heq
      simp [jsMapGet]
    · have hne : ¬ k' = n := by
        intro h
        subst h
        exact hnd.1 (List.mem_map.mpr ⟨(k', v), htail, rfl⟩)
      have hstep : jsMapGet ((k', v') :: rest) n = jsMapGet rest n := by
        simp [jsMapGet, hne]
      rw [hstep]
      exact ih hnd.2 htail

theorem jsMapGet_groupInit_fold :
    ∀ (names : List String) (m : List (String × List Transaction)) (n : String),
      jsMapGet (names.foldl (fun m k => jsMapSet m k ([] : List Transaction)) m) n =
        if n ∈ names then some [] else jsMapGet m n := by
  intro names
  induction names with
  | nil => intro m n; simp
  | cons k rest ih =>
    intro m n
    simp only [List.foldl_cons]
    rw [ih]
    by_cases h1 : n ∈ rest
    · simp [h1]
    · by_cases h2 : n = k
      · subst h2; simp [h1, jsMapGet_jsMapSet]
      · simp [h1, h2, jsMapGet_jsMapSet]

theorem jsMapGet_groupInit (names : List String) (n : String) :
    jsMapGet (groupInit names) n = if n ∈ names then some [] else none := by
  unfold groupInit
  rw [jsMapGet_groupInit_fold]
  by_cases h : n ∈ names <;> simp [h, jsMapGet]

theorem jsMapGet_groupFold :
    ∀ (txns : List Transaction) (m : List (String × List Transaction)) (n : String),
      jsMapGet (txns.foldl groupStep m) n =
        (jsMapGet m n).map (fun l => l ++ txns.filter (fun t => t.account == n)) := by
  intro txns
  induction txns with
  | nil =>
    intro m n
    cases h : jsMapGet m n <;> simp [h]
  | cons t rest ih =>
    intro m n
    simp only [List.foldl_cons]
    rw [ih]
    unfold groupStep
    cases hacc : jsMapGet m t.account with
    | none =>
      by_cases hn : t.account = n
      · subst hn
        simp [hacc]
      · have hbeq : (t.account == n) = false := by simp [hn]
        simp [List.filter_cons, hbeq]
    | some l =>
      rw [jsMapGet_jsMapSet]
      by_cases hn : n = t.account
      · subst hn
        simp [hacc, List.filter_cons, List.concat_eq_append]
      · have hbeq : (t.account == n) = false := by
          simp
          exact fun h => hn h.symm
        simp [hn, hacc, List.filter_cons, hbeq]

theorem jsMapGet_group (names : List String) (txns : List Transaction) (n : String) :
    jsMapGet (groupTransactionsByAccount names txns) n =
      if n ∈ names then some (txns.filter (fun t => t.account == n)) else none := by
  unfold groupTransactionsByAccount
  rw [jsMapGet_groupFold, jsMapGet_groupInit]
  by_cases h : n ∈ names <;> simp [h]

theorem keys_groupStep_fold :
    ∀ (txns : List Transaction) (m : List (String × List Transaction)),
      (txns.foldl groupStep m).map Prod.fst = m.map Prod.fst := by
  intro txns
  induction txns with
  | nil => intro m; rfl
  | cons t rest ih =>
    intro m
    simp only [List.foldl_cons]
    rw [ih]
    unfold groupStep
    cases hacc : jsMapGet m t.account with
    | none => rfl
    | some l =>
      rw [keys_jsMapSet]
      have hmem : t.account ∈ m.map Prod.fst :=
        List.mem_map.mpr ⟨(t.account, l), mem_of_jsMapGet hacc, rfl⟩
      simp [hmem]

theorem dedupKeysAux_congr :
    ∀ (l s1 s2 : List String), (∀ x, x ∈ s1 ↔ x ∈ s2) →
      dedupKeysAux s1 l = dedupKeysAux s2 l := by
  intro l
  induction l with
  | nil => intro s1 s2 _; rfl
  | cons k rest ih =>
    intro s1 s2 h
    simp only [dedupKeysAux]
    by_cases hk : k ∈ s1
    · simp [hk, (h k).mp hk, ih s1 s2 h]
    · have hk2 : k ∉ s2 := fun hh => hk ((h k).mpr hh)
      simp only [hk, hk2, if_false]
      rw [ih (k :: s1) (k :: s2) (by intro x; simp [h x])]

theorem keys_groupInit_fold :
    ∀ (names : List String) (m : List (String × List Transaction)),
      (names.foldl (fun m k => jsMapSet m k ([] : List Transaction)) m).map Prod.fst =
        m.map Prod.fst ++ dedupKeysAux (m.map Prod.fst) names := by
  intro names
  induction names with
  | nil => intro m; simp [dedupKeysAux]
  | cons k rest ih =>
    intro m
    simp only [List.foldl_cons]
    rw [ih, keys_jsMapSet]
    by_cases h : k ∈ m.map Prod.fst
    · simp only [h, if_true, dedupKeysAux, if_pos h]
    · simp only [h, if_false, dedupKeysAux, if_neg h]
      rw [dedupKeysAux_congr rest (m.map Prod.fst ++ [k]) (k :: m.map Prod.fst)
        (by intro x; simp [or_comm])]
      simp

theorem dedupKeysAux_nodup :
    ∀ (l seen : List String),
      (dedupKeysAux seen l).Nodup ∧ ∀ x ∈ dedupKeysAux seen l, x ∉ seen := by
  intro l
  induction l with
  | nil => intro seen; simp [dedupKeysAux]
  | cons k rest ih =>
    intro seen
    simp only [dedupKeysAux]
    by_cases hk : k ∈ seen
    · simpa [hk] using ih seen
    · obtain ⟨h1, h2⟩ := ih (k :: seen)
      simp only [hk, if_false]
      refine ⟨List.nodup_cons.mpr ⟨fun hmem => (h2 k hmem) (List.mem_cons_self k seen), h1⟩, ?_⟩
      intro x hx
      rcases List.mem_cons.mp hx with rfl | hx'
      · exact hk
      · intro hxs
        exact h2 x hx' (List.mem_cons_of_mem _ hxs)

theorem keys_group (names : List String) (txns : List Transaction) :
    (groupTransactionsByAccount names txns).map Prod.fst = dedupKeysAux [] names := by
  unfold groupTransactionsByAccount groupInit
  rw [keys_groupStep_fold, keys_groupInit_fold]
  simp

theorem mem_group_eq {names : List String} {txns : List Transaction}
    {p : String × List Transaction} (hp : p ∈ groupTransactionsByAccount names txns) :
    p.1 ∈ names ∧ p.2 = txns.filter (fun t => t.account == p.1) := by
  have hnd : ((groupTransactionsByAccount names txns).map Prod.fst).Nodup := by
    rw [keys_group]
    exact (dedupKeysAux_nodup names []).1
  have hget := jsMapGet_of_mem_nodup hnd (show (p.1, p.2) ∈ _ by simpa using hp)
  rw [jsMapGet_group] at hget
  by_cases h : p.1 ∈ names
  · rw [if_pos h] at hget
    injection hget with hv
    exact ⟨h, hv.symm⟩
  · rw [if_neg h] at hget
    exact absurd hget (by simp)

theorem group_mem_of_names {names : List String} {txns : List Transaction} {n : String}
    (hn : n ∈ names) :
    (n, txns.filter (fun t => t.account == n)) ∈ groupTransactionsByAccount names txns :=
  mem_of_jsMapGet (by rw [jsMapGet_group]; simp [hn])

/-! ## Helper lemmas about the sync run, parsers and numbers -/

theorem ratFloor_eq_floor (q : ℚ) : ratFloor q = ⌊q⌋ := by
  rw [Rat.floor_def]
  unfold ratFloor
  exact Int.fdiv_eq_ediv _ (by positivity)

theorem jsNumAbs_nonneg (n : JsNum) : n.abs.nonneg = true := by
  cases n <;> simp [JsNum.abs, JsNum.nonneg, abs_nonneg]

theorem jsOr_eq_or (a b : JsNum) : a.jsOr b = a ∨ a.jsOr b = b := by
  unfold JsNum.jsOr
  split_ifs <;> simp

theorem processTransactionsRun_no_throw
    (f : String → Option String) (g : String → List ActualTransaction → ImportOutcome)
    (hg : ∀ i ts, (g i ts).isThrows = false) :
    ∀ lines, processTransactionsRun f g lines =
      ⟨lines.filterMap (fun l => (f l.account).bind
        (fun id => if id = "" then none else some (id, l.transactions))), 0⟩ := by
  intro lines
  induction lines with
  | nil => rfl
  | cons line rest ih =>
    cases hf : f line.account with
    | none => simp [processTransactionsRun, hf, List.filterMap_cons, ih]
    | some id =>
      by_cases hid : id = ""
      · subst hid
        simp [processTransactionsRun, hf, List.filterMap_cons, ih]
      · cases hgi : g id line.transactions with
        | throws msg =>
          have := hg id line.transactions
          rw [hgi] at this
          simp [ImportOutcome.isThrows] at this
        | ok hr =>
          simp [processTransactionsRun, hf, hid, hgi, List.filterMap_cons, ih]

theorem processTransactionsRun_throws
    {f : String → Option String} {g : String → List ActualTransaction → ImportOutcome}
    {line : ActualAccountTransactions} {rest : List ActualAccountTransactions}
    {id msg : String}
    (hf : f line.account = some id) (hid : id ≠ "")
    (hg : g id line.transactions = .throws msg) :
    processTransactionsRun f g (line :: rest) = ⟨[(id, line.transactions)], 1⟩ := by
  simp [processTransactionsRun, hf, hid, hg]

theorem processAccountMappingAux_error {avail : List (String × String)} {s d : String} :
    ∀ (mapping acc : List (String × String)), (s, d) ∈ mapping →
      jsMapGet avail d = none →
      ∃ e, processAccountMappingAux avail acc mapping = .error e := by
  intro mapping
  induction mapping with
  | nil =>
    intro acc h _
    simp at h
  | cons p rest ih =>
    intro acc hmem hd
    obtain ⟨s', d'⟩ := p
    rcases List.mem_cons.mp hmem with heq | htail
    · cases heq
      simp [processAccountMappingAux, hd]
    · cases hget : jsMapGet avail d' with
      | none => simp [processAccountMappingAux, hget]
      | some id =>
        simp only [processAccountMappingAux, hget]
        exact ih _ htail hd

theorem nodeJsMain_error_of_missing {accounts accountMapping : List (String × String)}
    {s d : String}
    (hmem : (s, d) ∈ accountMapping)
    (hd : jsMapGet (buildAccountsMap accounts) d = none) :
    (∃ e, processAccountMapping accounts accountMapping = .error e) ∧
      ∀ apiImport lines, nodeJsMain accounts accountMapping apiImport lines = ⟨[], 1⟩ := by
  obtain ⟨e, he⟩ := processAccountMappingAux_error accountMapping [] hmem hd
  have he' : processAccountMapping accounts accountMapping = .error e := he
  refine ⟨⟨e, he'⟩, ?_⟩
  intro apiImport lines
  simp [nodeJsMain, he']

theorem jsParseFloat_nonfinite {s : String} {v : JsNum}
    (h : jsParseFloat s = some v) (hf : v.isFinite = false) :
    leadsWith "Infinity".toList (stripLeadingSign (s.toList.dropWhile isJsWhitespace)) = true ∨
    ∃ q, parseDecimalValue (stripLeadingSign (s.toList.dropWhile isJsWhitespace)) = some q ∧
      jsOverflowBound ≤ q := by
  simp only [jsParseFloat] at h
  cases hb : leadsWith "Infinity".toList (stripLeadingSign (s.toList.dropWhile isJsWhitespace)) with
  | true => exact Or.inl rfl
  | false =>
    rw [hb] at h
    simp only [Bool.false_eq_true, if_false] at h
    cases hp : parseDecimalValue (stripLeadingSign (s.toList.dropWhile isJsWhitespace)) with
    | none =>
      rw [hp] at h
      exact absurd h (by simp)
    | some q =>
      rw [hp] at h
      dsimp only at h
      by_cases hq : jsOverflowBound ≤ q
      · exact Or.inr ⟨q, rfl, hq⟩
      · exfalso
        rw [if_neg hq] at h
        simp only [Option.some.injEq] at h
        rw [← h] at hf
        simp [JsNum.isFinite] at hf

theorem parseFloatSafely_of_none {s : String} {b : Bool}
    (h : jsParseFloat (stripCommas s b) = none) :
    parseFloatSafely s b = .finite 0 := by
  unfold parseFloatSafely
  rw [h]

theorem parseFloatSafely_nonfinite {s : String} {b : Bool}
    (hf : (parseFloatSafely s b).isFinite = false) :
    leadsWith "Infinity".toList
      (stripLeadingSign ((stripCommas s b).toList.dropWhile isJsWhitespace)) = true ∨
    ∃ q, parseDecimalValue
        (stripLeadingSign ((stripCommas s b).toList.dropWhile isJsWhitespace)) = some q ∧
      jsOverflowBound ≤ q := by
  unfold parseFloatSafely at hf
  cases hp : jsParseFloat (stripCommas s b) with
  | none =>
    rw [hp] at hf
    simp [JsNum.isFinite] at hf
  | some v =>
    rw [hp] at hf
    exact jsParseFloat_nonfinite hp hf

theorem toCombinedRow_mem_writeCombinedRows {outputs : List (List Transaction)}
    {t : Transaction} (ht : t ∈ outputs.flatten) :
    ∃ rows, writeCombinedRows outputs = some rows ∧ toCombinedRow t ∈ rows := by
  unfold writeCombinedRows
  have hne : outputs.flatten.isEmpty = false := by
    cases houts : outputs.flatten with
    | nil =>
      rw [houts] at ht
      simp at ht
    | cons a l => rfl
  simp only [hne, Bool.false_eq_true, if_false]
  refine ⟨_, rfl, ?_⟩
  exact List.mem_map.mpr ⟨t, ((List.perm_insertionSort txDateLe _).mem_iff).mpr ht, rfl⟩

theorem parseTableRows_spec :
    ∀ (rows : List ParsedRow) (out : List (List String) × List Transaction),
      parseTableRows rows = .ok out →
      out.1 = ((rows.filter (fun r => decide (r.rawDate ≠ ""))).filter
          (fun r => decide (r.pending = ""))).map tableCsvRow ∧
      out.2.map (fun t => t.isPending) =
        ((rows.filter (fun r => decide (r.rawDate ≠ ""))).map
          (fun r => decide (r.pending ≠ ""))).reverse ∧
      out.2.map (fun t => t.description) =
        ((rows.filter (fun r => decide (r.rawDate ≠ ""))).map (fun r => r.remarks)).reverse := by
  intro rows
  induction rows with
  | nil =>
    intro out h
    simp only [parseTableRows, Except.ok.injEq] at h
    subst h
    simp
  | cons r rest ih =>
    intro out h
    simp only [parseTableRows] at h
    by_cases hdate : r.rawDate = ""
    · rw [if_pos hdate] at h
      have hrest := ih out h
      simpa [List.filter_cons, hdate] using hrest
    · rw [if_neg hdate] at h
      cases hpd : tablePlainDate r.rawDate with
      | error e =>
        rw [hpd] at h
        exact absurd h (by simp)
      | ok date =>
        rw [hpd] at h
        cases hrest : parseTableRows rest with
        | error e =>
          rw [hrest] at h
          exact absurd h (by simp)
        | ok pair =>
          rw [hrest] at h
          obtain ⟨csvRows, transactions⟩ := pair
          simp only [Except.ok.injEq] at h
          subst h
          obtain ⟨ih1, ih2, ih3⟩ := ih (csvRows, transactions) hrest
          dsimp only at ih1 ih2 ih3
          refine ⟨?_, ?_, ?_⟩
          · by_cases hp : r.pending = "" <;>
              simp [List.filter_cons, List.filter_filter, hdate, hp, ih1]
          · simp [List.filter_cons, hdate, tableTransaction, ih2]
          · simp [List.filter_cons, hdate, tableTransaction, ih3]

theorem parseDbsCsv_amount_form {jsDateSg : String → PlainDate} {contents : String}
    {ts : List Transaction} (h : parseDbsCsv jsDateSg contents = .ok ts) :
    ∀ t ∈ ts, ∃ (idxCredit idxDebit : Option ℕ) (cells : List String),
      t.absoluteAmount = dbsRowAmount idxCredit idxDebit cells ∧
      t.isDebit = (parseFloatSafely (cellAt cells idxDebit) false).gtZero := by
  simp only [parseDbsCsv] at h
  split_ifs at h
  · split at h
    · exact absurd h (by simp)
    · simp only [Except.ok.injEq] at h
      subst h
      intro t ht
      rw [List.mem_reverse] at ht
      obtain ⟨row, hrow, rfl⟩ := List.mem_map.mp ht
      exact ⟨_, _, _, rfl, rfl⟩

theorem dbsRowAmount_nonneg {idxCredit idxDebit : Option ℕ} {cells : List String}
    (hd : (parseFloatSafely (cellAt cells idxDebit) false).nonneg = true)
    (hc : (parseFloatSafely (cellAt cells idxCredit) false).nonneg = true) :
    (dbsRowAmount idxCredit idxDebit cells).nonneg = true := by
  unfold dbsRowAmount
  rcases jsOr_eq_or (parseFloatSafely (cellAt cells idxDebit) false)
    (parseFloatSafely (cellAt cells idxCredit) false) with h | h <;> rw [h] <;> assumption

theorem parseTableRows_absAmount :
    ∀ (rows : List ParsedRow) (out : List (List String) × List Transaction),
      parseTableRows rows = .ok out →
      ∀ t ∈ out.2, ∃ r date, t = tableTransaction r date := by
  intro rows
  induction rows with
  | nil =>
    intro out h
    simp only [parseTableRows, Except.ok.injEq] at h
    subst h
    simp
  | cons r rest ih =>
    intro out h
    simp only [parseTableRows] at h
    by_cases hdate : r.rawDate = ""
    · rw [if_pos hdate] at h
      exact ih out h
    · rw [if_neg hdate] at h
      cases hpd : tablePlainDate r.rawDate with
      | error e =>
        rw [hpd] at h
        exact absurd h (by simp)
      | ok date =>
        rw [hpd] at h
        cases hrest : parseTableRows rest with
        | error e =>
          rw [hrest] at h
          exact absurd h (by simp)
        | ok pair =>
          rw [hrest] at h
          obtain ⟨csvRows, transactions⟩ := pair
          simp only [Except.ok.injEq] at h
          subst h
          intro t ht
          rcases List.mem_append.mp ht with hmem | hmem
          · exact ih (csvRows, transactions) hrest t hmem
          · rw [List.mem_singleton.mp hmem]
            exact ⟨r, date, rfl⟩

/-! ## Claim theorems -/

/-- Claim C1: the combined transactions.csv export is claimed to list
transactions sorted by date in DESCENDING order.  The code's comparator
`(a, b) => Temporal.PlainDate.compare(a.date, b.date)` — despite the inline
comment "Sort in descending order" — sorts ASCENDING: on a concrete
two-transaction batch, the row dated 2024-01-01 is written before the row
dated 2024-01-02, so the first row's date is strictly smaller than the
following row's date. -/
theorem writeCombinedOutput_sorts_ascending_on_concrete_batch :
    writeCombinedRows [[⟨"acct", ⟨2024, 1, 2⟩, "newer", .finite 5, true, false⟩],
        [⟨"acct2", ⟨2024, 1, 1⟩, "older", .finite 7, false, true⟩]] =
      some [⟨"2024-01-01", "older", .finite (-7), "acct2", "pending"⟩,
        ⟨"2024-01-02", "newer", .finite 5, "acct", "cleared"⟩] ∧
    dateCompare ⟨2024, 1, 1⟩ ⟨2024, 1, 2⟩ = -1 :=
  ⟨by with_unfolding_all rfl, by decide⟩

/-- Claim C3: `convertTransaction` computes the ledger amount as
`round(absoluteAmount * 100) * (isDebit ? -1 : +1)` (an integer number of
minor units), maps `isPending` to `cleared = !isPending`, and copies the
description to the payee, imported-payee and notes fields; in particular a
debit of 42.5 gives amount `-4250` and a credit of 42.5 gives `+4250`. -/
theorem convertTransaction_spec :
    (∀ (t : Transaction) (q : ℚ), t.absoluteAmount = .finite q →
      (convertTransaction t).amount =
        .finite (((⌊q * 100 + 1/2⌋ : ℤ) : ℚ) * (if t.isDebit then -1 else 1))) ∧
    (∀ t : Transaction, (convertTransaction t).cleared = !t.isPending) ∧
    (∀ t : Transaction, (convertTransaction t).payee = t.description ∧
      (convertTransaction t).imported_payee = t.description ∧
      (convertTransaction t).notes = t.description) ∧
    (convertTransaction ⟨"a", ⟨2024, 1, 1⟩, "d", .finite 42.5, true, false⟩).amount
      = .finite (-4250) ∧
    (convertTransaction ⟨"a", ⟨2024, 1, 1⟩, "d", .finite 42.5, false, false⟩).amount
      = .finite 4250 := by
  refine ⟨?_, ?_, ?_, ?_, ?_⟩
  · intro t q hq
    simp [convertTransaction, hq, JsNum.scale, JsNum.round, ratFloor_eq_floor]
  · intro t
    rfl
  · intro t
    exact ⟨rfl, rfl, rfl⟩
  · with_unfolding_all rfl
  · with_unfolding_all rfl

/-- Claim C3 witness: the amount formula applied at the concrete debit
transaction with `absoluteAmount = 42.5`. -/
theorem convertTransaction_spec_witness :
    ((⟨"a", ⟨2024, 1, 1⟩, "d", .finite 42.5, true, false⟩ : Transaction).absoluteAmount
      = .finite 42.5) ∧
    (convertTransaction ⟨"a", ⟨2024, 1, 1⟩, "d", .finite 42.5, true, false⟩).amount =
      .finite (((⌊(42.5 : ℚ) * 100 + 1/2⌋ : ℤ) : ℚ) *
        (if (⟨"a", ⟨2024, 1, 1⟩, "d", .finite 42.5, true, false⟩ : Transaction).isDebit
          then -1 else 1)) :=
  ⟨rfl, convertTransaction_spec.1 _ 42.5 rfl⟩

/-- Claim C5 counterexample: `parseFloatSafely` does not always return a
finite number — on the input `"Infinity"` the underlying `parseFloat`
returns positive infinity, which is not `NaN`, so the guard does not replace
it with `0`; likewise the huge decimal literal `"1e999"` overflows the
double range and also comes back as positive infinity. -/
theorem parseFloatSafely_infinity_counterexample :
    parseFloatSafely "Infinity" false = .posInf ∧
    (parseFloatSafely "Infinity" false).isFinite = false ∧
    parseFloatSafely "1e999" false = .posInf ∧
    (parseFloatSafely "1e999" false).isFinite = false := by
  refine ⟨?_, ?_, ?_, ?_⟩ <;> with_unfolding_all rfl

/-- Claim C5 (amended): `parseFloatSafely` is total and never raises; when
the numeric parse fails (`NaN`) it returns `0`; the result is finite except
when the parsed literal (after optional comma stripping, whitespace skipping
and an optional sign) is an `Infinity` keyword, or is a decimal literal
whose magnitude reaches the IEEE double overflow threshold
`2 ^ 1024 - 2 ^ 970` and therefore converts to an infinity. -/
theorem parseFloatSafely_total_spec :
    ∀ (s : String) (b : Bool),
      (jsParseFloat (stripCommas s b) = none → parseFloatSafely s b = .finite 0) ∧
      ((parseFloatSafely s b).isFinite = false →
        leadsWith "Infinity".toList
          (stripLeadingSign ((stripCommas s b).toList.dropWhile isJsWhitespace)) = true ∨
        ∃ q, parseDecimalValue
            (stripLeadingSign ((stripCommas s b).toList.dropWhile isJsWhitespace)) = some q ∧
          jsOverflowBound ≤ q) :=
  fun _ _ => ⟨parseFloatSafely_of_none, parseFloatSafely_nonfinite⟩

/-- Claim C5 witness: the failure case at `"abc"` (with comma removal), the
Infinity-keyword case at `"-Infinity"`, and the overflow case at `"1e999"`. -/
theorem parseFloatSafely_total_spec_witness :
    (jsParseFloat (stripCommas "abc" true) = none ∧
      parseFloatSafely "abc" true = .finite 0) ∧
    ((parseFloatSafely "-Infinity" false).isFinite = false ∧
      (leadsWith "Infinity".toList
          (stripLeadingSign ((stripCommas "-Infinity" false).toList.dropWhile isJsWhitespace))
          = true ∨
        ∃ q, parseDecimalValue
            (stripLeadingSign ((stripCommas "-Infinity" false).toList.dropWhile isJsWhitespace))
            = some q ∧ jsOverflowBound ≤ q)) ∧
    ((parseFloatSafely "1e999" false).isFinite = false ∧
      (leadsWith "Infinity".toList
          (stripLeadingSign ((stripCommas "1e999" false).toList.dropWhile isJsWhitespace))
          = true ∨
        ∃ q, parseDecimalValue
            (stripLeadingSign ((stripCommas "1e999" false).toList.dropWhile isJsWhitespace))
            = some q ∧ jsOverflowBound ≤ q)) :=
  ⟨⟨by with_unfolding_all rfl, (parseFloatSafely_total_spec "abc" true).1
      (by with_unfolding_all rfl)⟩,
   ⟨by with_unfolding_all rfl, (parseFloatSafely_total_spec "-Infinity" false).2
      (by with_unfolding_all rfl)⟩,
   ⟨by with_unfolding_all rfl, (parseFloatSafely_total_spec "1e999" false).2
      (by with_unfolding_all rfl)⟩⟩

/-- Claim C6 counterexample: the description is NOT always the join of
exactly the non-empty, non-sentinel reference fields.  The code pushes the
primary field whenever it differs from `"ITR"`, even when it is empty
(yielding a leading space), and skips the sentinel only in the primary
position (an `"ITR"` in another field is kept). -/
theorem buildDescription_claim_counterexample :
    buildDescription "" "A" "" "" = " A" ∧
    buildDescriptionClaim "" "A" "" "" = "A" ∧
    (" A" : String) ≠ "A" ∧
    buildDescription "X" "ITR" "" "" = "X ITR" ∧
    buildDescriptionClaim "X" "ITR" "" "" = "X" :=
  ⟨by rfl, by rfl, by decide, by rfl, by rfl⟩

/-- Claim C6 (amended): the description equals the whitespace-collapsed
space-join of: the primary reference field whenever it differs from the
sentinel `"ITR"` (even when empty), and each remaining reference field
whenever non-empty (even when equal to the sentinel); when the primary field
is the sentinel and the rest are empty, the primary field is returned
verbatim.  The claim's concrete instance `["ITR", "", "REF2", ""] ↦ "REF2"`
and the sentinel fallback hold as stated. -/
theorem buildDescription_amended_spec :
    (∀ r0 r1 r2 r3, buildDescription r0 r1 r2 r3 = buildDescriptionAmended r0 r1 r2 r3) ∧
    buildDescription "ITR" "" "REF2" "" = "REF2" ∧
    buildDescription "ITR" "" "" "" = "ITR" := by
  refine ⟨?_, by rfl, by rfl⟩
  intro r0 r1 r2 r3
  unfold buildDescription buildDescriptionAmended
  by_cases h0 : r0 = "ITR" <;> by_cases h1 : r1 = "" <;> by_cases h2 : r2 = "" <;>
    by_cases h3 : r3 = "" <;> simp [h0, h1, h2, h3]

/-- Claim C2 counterexample: with two mapped accounts that both resolve, a
rejected import call for the first account prevents the second account from
ever being attempted — the run performs only the failing call and exits 1,
refuting "errors are collected, not short-circuited". -/
theorem submissionFailure_skips_remaining_accounts_counterexample :
    processAccountMapping [("A", "idA"), ("B", "idB")] [("SrcA", "A"), ("SrcB", "B")] =
      .ok [("SrcA", "idA"), ("SrcB", "idB")] ∧
    (importTransactionsLines [("SrcA", "A"), ("SrcB", "B")] []).map
      (fun l => l.account) = ["SrcA", "SrcB"] ∧
    actualSyncRun [("A", "idA"), ("B", "idB")] [("SrcA", "A"), ("SrcB", "B")] []
        (fun accountId _ => if accountId = "idA" then .throws "rejected" else .ok false) =
      ⟨[("idA", [])], 1⟩ ∧
    ((actualSyncRun [("A", "idA"), ("B", "idB")] [("SrcA", "A"), ("SrcB", "B")] []
        (fun accountId _ => if accountId = "idA" then .throws "rejected" else .ok false)).calls.map
      Prod.fst).contains "idB" = false :=
  ⟨by with_unfolding_all rfl, by with_unfolding_all rfl,
   by with_unfolding_all rfl, by with_unfolding_all rfl⟩

/-- Claim C2 (amended): a rejected (thrown) import call for one account
terminates the run at that account — the failing call is the only remaining
one performed, no later account is attempted, and the run exits 1; a failure
carried only inside a resolved result never surfaces: when no call throws,
the run exits 0 regardless of the results' contents. -/
theorem submissionFailure_abort_semantics :
    (∀ (f : String → Option String)
        (g : String → List ActualTransaction → ImportOutcome)
        (line : ActualAccountTransactions) (rest : List ActualAccountTransactions)
        (id msg : String), f line.account = some id → id ≠ "" →
        g id line.transactions = .throws msg →
        processTransactionsRun f g (line :: rest) = ⟨[(id, line.transactions)], 1⟩) ∧
    (∀ (f : String → Option String)
        (g : String → List ActualTransaction → ImportOutcome)
        (lines : List ActualAccountTransactions),
        (∀ i ts, (g i ts).isThrows = false) →
        (processTransactionsRun f g lines).exitCode = 0) :=
  ⟨fun _ _ _ _ _ _ hf hid hg => processTransactionsRun_throws hf hid hg,
   fun f g lines hg => by rw [processTransactionsRun_no_throw f g hg]⟩

/-- Claim C2 witness: a throwing import aborts after the first mapped line
(the second line is never attempted), and an all-resolving import gives exit
code 0. -/
theorem submissionFailure_abort_semantics_witness :
    processTransactionsRun (fun _ => some "idA") (fun _ _ => .throws "boom")
      [⟨"SrcA", []⟩, ⟨"SrcB", []⟩] = ⟨[("idA", [])], 1⟩ ∧
    (processTransactionsRun (fun _ => some "idA") (fun _ _ => .ok true)
      [⟨"SrcA", []⟩]).exitCode = 0 :=
  ⟨submissionFailure_abort_semantics.1 _ _ _ _ "idA" "boom" rfl (by decide) rfl,
   submissionFailure_abort_semantics.2 _ _ _ (fun _ _ => rfl)⟩

/-- Claim C4: when any configured destination account name is absent from
the ledger's account list, the whole account-mapping resolution throws, and
`nodeJsMain` exits 1 having performed no `importTransactions` call at all,
for every batch of payload lines. -/
theorem missingDestination_aborts_before_any_submission :
    ∀ (accounts accountMapping : List (String × String))
      (apiImport : String → List ActualTransaction → ImportOutcome)
      (lines : List ActualAccountTransactions) (s d : String),
      (s, d) ∈ accountMapping →
      jsMapGet (buildAccountsMap accounts) d = none →
      (∃ e, processAccountMapping accounts accountMapping = .error e) ∧
      nodeJsMain accounts accountMapping apiImport lines = ⟨[], 1⟩ := by
  intro accounts mapping apiImport lines s d hmem hd
  obtain ⟨hex, hall⟩ := nodeJsMain_error_of_missing hmem hd
  exact ⟨hex, hall apiImport lines⟩

/-- Claim C4 witness: a mapping whose destination `"B"` is not among the
ledger accounts aborts the run with no calls. -/
theorem missingDestination_aborts_before_any_submission_witness :
    (("SrcB", "B") ∈ ([("SrcB", "B")] : List (String × String)) ∧
      jsMapGet (buildAccountsMap [("A", "idA")]) "B" = none) ∧
    ((∃ e, processAccountMapping [("A", "idA")] [("SrcB", "B")] = .error e) ∧
      nodeJsMain [("A", "idA")] [("SrcB", "B")] (fun _ _ => .ok false)
        [⟨"SrcB", []⟩] = ⟨[], 1⟩) :=
  ⟨⟨by decide, by with_unfolding_all rfl⟩,
   missingDestination_aborts_before_any_submission [("A", "idA")] [("SrcB", "B")]
     (fun _ _ => .ok false) [⟨"SrcB", []⟩] "SrcB" "B" (by decide)
     (by with_unfolding_all rfl)⟩

/-- Claim C7 counterexample: `parseDbsCsv` can construct a `Transaction`
with negative `absoluteAmount` — a Debit Amount cell holding `"-5.00"`
parses to `-5`, which is truthy, becomes `absoluteAmount` unchanged, and is
not nonnegative. -/
theorem parseDbsCsv_negative_absoluteAmount_counterexample :
    parseDbsCsv (fun _ => ⟨2024, 1, 1⟩)
        ("Account Details For:,My Account\nTransaction Date,Reference,Debit Amount,Credit Amount,Transaction Ref1,Transaction Ref2,Transaction Ref3\n02 Jan 2024,TEST,-5.00,,,,") =
      .ok [⟨"My Account", ⟨2024, 1, 1⟩, "TEST", .finite (-5), false, false⟩] ∧
    (JsNum.finite (-5)).nonneg = false :=
  ⟨by with_unfolding_all rfl, by with_unfolding_all rfl⟩

/-- Claim C7 (amended): every `Transaction` built by the markup-table parser
has nonnegative `absoluteAmount` (it applies `Math.abs`); every `Transaction`
built by the CSV parser carries as `absoluteAmount` the JavaScript value
`debitAmount || creditAmount` of its row, which is nonnegative whenever both
amount cells parse to nonnegative values — but not in general (see the
counterexample). -/
theorem absoluteAmount_nonneg_amended :
    (∀ (rows : List ParsedRow) (out : List (List String) × List Transaction),
        parseTableRows rows = .ok out → ∀ t ∈ out.2, t.absoluteAmount.nonneg = true) ∧
    (∀ (jsDateSg : String → PlainDate) (contents : String) (ts : List Transaction),
        parseDbsCsv jsDateSg contents = .ok ts → ∀ t ∈ ts,
          ∃ (idxCredit idxDebit : Option ℕ) (cells : List String),
            t.absoluteAmount = dbsRowAmount idxCredit idxDebit cells) ∧
    (∀ (idxCredit idxDebit : Option ℕ) (cells : List String),
        (parseFloatSafely (cellAt cells idxDebit) false).nonneg = true →
        (parseFloatSafely (cellAt cells idxCredit) false).nonneg = true →
        (dbsRowAmount idxCredit idxDebit cells).nonneg = true) := by
  refine ⟨?_, ?_, ?_⟩
  · intro rows out h t ht
    obtain ⟨r, date, rfl⟩ := parseTableRows_absAmount rows out h t ht
    exact jsNumAbs_nonneg _
  · intro jsDateSg contents ts h t ht
    obtain ⟨ic, idx, cells, heq, _⟩ := parseDbsCsv_amount_form h t ht
    exact ⟨ic, idx, cells, heq⟩
  · intro ic idx cells hd hc
    exact dbsRowAmount_nonneg hd hc

/-- Claim C7 witness: the table-parser half at a concrete settled row, the
CSV-parser amount form at the concrete export of the counterexample, and the
nonnegativity of a `debit || credit` amount whose cells are `""` and
`"5.00"`. -/
theorem absoluteAmount_nonneg_amended_witness :
    ((⟨"Citi 1234", ⟨2024, 1, 1⟩, "LUNCH", .finite 12, true, false⟩ :
        Transaction).absoluteAmount.nonneg = true) ∧
    (∃ (idxCredit idxDebit : Option ℕ) (cells : List String),
      (⟨"My Account", ⟨2024, 1, 1⟩, "TEST", .finite (-5), false, false⟩ :
        Transaction).absoluteAmount = dbsRowAmount idxCredit idxDebit cells) ∧
    (dbsRowAmount (some 0) (some 1) ["", "5.00"]).nonneg = true :=
  ⟨absoluteAmount_nonneg_amended.1
      [⟨"xxxxxxxxxxxx1234", "01/01/2024", "LUNCH", "SGD 12.00", "", ""⟩]
      ([["01/01/2024", "LUNCH", "-12.00", "", "xxxxxxxxxxxx1234"]],
        [⟨"Citi 1234", ⟨2024, 1, 1⟩, "LUNCH", .finite 12, true, false⟩])
      (by with_unfolding_all rfl) _ (by simp),
   absoluteAmount_nonneg_amended.2.1 (fun _ => ⟨2024, 1, 1⟩)
      ("Account Details For:,My Account\nTransaction Date,Reference,Debit Amount,Credit Amount,Transaction Ref1,Transaction Ref2,Transaction Ref3\n02 Jan 2024,TEST,-5.00,,,,")
      [⟨"My Account", ⟨2024, 1, 1⟩, "TEST", .finite (-5), false, false⟩]
      (by with_unfolding_all rfl) _ (by simp),
   absoluteAmount_nonneg_amended.2.2 (some 0) (some 1) ["", "5.00"]
      (by with_unfolding_all rfl) (by with_unfolding_all rfl)⟩

/-- Claim C8: in the markup-table parser, rows carrying the pending marker
are excluded from the delimited-text re-serialization (which keeps exactly
the kept settled rows, in document order) but still yield a `Transaction`
whose `isPending` is true — the transaction sequence's pending flags are
exactly the kept rows' pending markers (in reverse document order, matching
the `unshift` construction), and its descriptions are those rows' remarks. -/
theorem parseTable_pending_row_handling :
    ∀ (rows : List ParsedRow) (out : List (List String) × List Transaction),
      parseTableRows rows = .ok out →
      out.1 = ((rows.filter (fun r => decide (r.rawDate ≠ ""))).filter
          (fun r => decide (r.pending = ""))).map tableCsvRow ∧
      out.2.map (fun t => t.isPending) =
        ((rows.filter (fun r => decide (r.rawDate ≠ ""))).map
          (fun r => decide (r.pending ≠ ""))).reverse ∧
      out.2.map (fun t => t.description) =
        ((rows.filter (fun r => decide (r.rawDate ≠ ""))).map (fun r => r.remarks)).reverse :=
  parseTableRows_spec

/-- Claim C8 witness: a pending and a settled row — the re-serialization
keeps only the settled row while both transactions are returned, the pending
row's transaction carrying `isPending = true`. -/
theorem parseTable_pending_row_handling_witness :
    parseTableRows
      [⟨"xxxxxxxxxxxx1234", "02/01/2024", "COFFEE", "SGD 5.50", "", "pending"⟩,
       ⟨"xxxxxxxxxxxx1234", "01/01/2024", "LUNCH", "SGD 12.00", "", ""⟩] =
      .ok ([["01/01/2024", "LUNCH", "-12.00", "", "xxxxxxxxxxxx1234"]],
        [⟨"Citi 1234", ⟨2024, 1, 1⟩, "LUNCH", .finite 12, true, false⟩,
         ⟨"Citi 1234", ⟨2024, 1, 2⟩, "COFFEE", .finite 5.5, true, true⟩]) ∧
    ([⟨"Citi 1234", ⟨2024, 1, 1⟩, "LUNCH", .finite 12, true, false⟩,
      ⟨"Citi 1234", ⟨2024, 1, 2⟩, "COFFEE", .finite 5.5, true, true⟩] :
        List Transaction).map (fun t => t.isPending) =
      ((([⟨"xxxxxxxxxxxx1234", "02/01/2024", "COFFEE", "SGD 5.50", "", "pending"⟩,
         ⟨"xxxxxxxxxxxx1234", "01/01/2024", "LUNCH", "SGD 12.00", "", ""⟩] :
          List ParsedRow).filter (fun r => decide (r.rawDate ≠ ""))).map
        (fun r => decide (r.pending ≠ ""))).reverse :=
  ⟨by with_unfolding_all rfl,
   (parseTable_pending_row_handling
      [⟨"xxxxxxxxxxxx1234", "02/01/2024", "COFFEE", "SGD 5.50", "", "pending"⟩,
       ⟨"xxxxxxxxxxxx1234", "01/01/2024", "LUNCH", "SGD 12.00", "", ""⟩]
      ([["01/01/2024", "LUNCH", "-12.00", "", "xxxxxxxxxxxx1234"]],
        [⟨"Citi 1234", ⟨2024, 1, 1⟩, "LUNCH", .finite 12, true, false⟩,
         ⟨"Citi 1234", ⟨2024, 1, 2⟩, "COFFEE", .finite 5.5, true, true⟩])
      (by with_unfolding_all rfl)).2.1⟩

/-- Claim C9: the per-account payload lines submitted to the ledger contain
exactly the transactions whose account is a key of the account mapping —
every mapped account name has a payload line carrying precisely its
transactions (converted, in input order), every payload line belongs to a
mapped account and carries precisely that account's transactions, and every
transaction of the batch (mapped or not) still appears as a row of the
combined delimited-text export. -/
theorem ledger_scope_and_export_spec :
    (∀ (accountMapping : List (String × String)) (txns : List Transaction) (n : String),
        n ∈ jsObjectKeys accountMapping →
        ∃ line ∈ importTransactionsLines accountMapping txns,
          line.account = n ∧
          line.transactions = (txns.filter (fun t => t.account == n)).map convertTransaction) ∧
    (∀ (accountMapping : List (String × String)) (txns : List Transaction)
        (line : ActualAccountTransactions),
        line ∈ importTransactionsLines accountMapping txns →
        line.account ∈ jsObjectKeys accountMapping ∧
        line.transactions =
          (txns.filter (fun t => t.account == line.account)).map convertTransaction) ∧
    (∀ (outputs : List (List Transaction)) (t : Transaction), t ∈ outputs.flatten →
        ∃ rows, writeCombinedRows outputs = some rows ∧ toCombinedRow t ∈ rows) := by
  refine ⟨?_, ?_, ?_⟩
  · intro mapping txns n hn
    refine ⟨⟨n, (txns.filter (fun t => t.account == n)).map convertTransaction⟩, ?_, rfl, rfl⟩
    unfold importTransactionsLines
    exact List.mem_map.mpr ⟨(n, txns.filter (fun t => t.account == n)),
      group_mem_of_names hn, rfl⟩
  · intro mapping txns line hline
    unfold importTransactionsLines at hline
    obtain ⟨p, hp, rfl⟩ := List.mem_map.mp hline
    obtain ⟨hmem, heq⟩ := mem_group_eq hp
    exact ⟨hmem, by rw [heq]⟩
  · intro outputs t ht
    exact toCombinedRow_mem_writeCombinedRows ht

/-- Claim C9 witness: with mapping key `"A"` and one `"A"`-transaction and
one unmapped `"Z"`-transaction, the payload line for `"A"` exists and
carries exactly the converted `"A"`-transaction, the single payload line is
for a mapped account, and the unmapped transaction still reaches the
combined export. -/
theorem ledger_scope_and_export_spec_witness :
    ("A" ∈ jsObjectKeys [("A", "ledgerA")] ∧
      (∃ line ∈ importTransactionsLines [("A", "ledgerA")]
          [⟨"A", ⟨2024, 1, 1⟩, "a", .finite 1, true, false⟩,
           ⟨"Z", ⟨2024, 1, 2⟩, "z", .finite 2, true, false⟩],
        line.account = "A" ∧
        line.transactions =
          (([⟨"A", ⟨2024, 1, 1⟩, "a", .finite 1, true, false⟩,
             ⟨"Z", ⟨2024, 1, 2⟩, "z", .finite 2, true, false⟩] :
            List Transaction).filter (fun t => t.account == "A")).map convertTransaction)) ∧
    ((⟨"A", [convertTransaction ⟨"A", ⟨2024, 1, 1⟩, "a", .finite 1, true, false⟩]⟩ :
        ActualAccountTransactions) ∈
        importTransactionsLines [("A", "ledgerA")]
          [⟨"A", ⟨2024, 1, 1⟩, "a", .finite 1, true, false⟩,
           ⟨"Z", ⟨2024, 1, 2⟩, "z", .finite 2, true, false⟩] ∧
      ("A" : String) ∈ jsObjectKeys [("A", "ledgerA")]) ∧
    (⟨"Z", ⟨2024, 1, 2⟩, "z", .finite 2, true, false⟩ : Transaction) ∈
        ([[⟨"Z", ⟨2024, 1, 2⟩, "z", .finite 2, true, false⟩]] :
          List (List Transaction)).flatten ∧
    (∃ rows, writeCombinedRows [[⟨"Z", ⟨2024, 1, 2⟩, "z", .finite 2, true, false⟩]] =
        some rows ∧
      toCombinedRow ⟨"Z", ⟨2024, 1, 2⟩, "z", .finite 2, true, false⟩ ∈ rows) := by
  refine ⟨⟨by decide, ?_⟩, ⟨?_, by decide⟩, by simp, ?_⟩
  · exact ledger_scope_and_export_spec.1 [("A", "ledgerA")] _ "A" (by decide)
  · have := ledger_scope_and_export_spec.1 [("A", "ledgerA")]
      [⟨"A", ⟨2024, 1, 1⟩, "a", .finite 1, true, false⟩,
       ⟨"Z", ⟨2024, 1, 2⟩, "z", .finite 2, true, false⟩] "A" (by decide)
    have hline : (⟨"A", [convertTransaction ⟨"A", ⟨2024, 1, 1⟩, "a", .finite 1, true, false⟩]⟩ :
        ActualAccountTransactions) ∈
        importTransactionsLines [("A", "ledgerA")]
          [⟨"A", ⟨2024, 1, 1⟩, "a", .finite 1, true, false⟩,
           ⟨"Z", ⟨2024, 1, 2⟩, "z", .finite 2, true, false⟩] := by
      with_unfolding_all decide
    exact hline
  · exact ledger_scope_and_export_spec.2.2
      [[⟨"Z", ⟨2024, 1, 2⟩, "z", .finite 2, true, false⟩]]
      ⟨"Z", ⟨2024, 1, 2⟩, "z", .finite 2, true, false⟩ (by simp)

/-- Claim C10: for every account name in the mapping's key set, a payload
line is produced even when no transaction belongs to it (the grouped list is
then empty rather than the line being skipped), and — once the mapping
resolves to a truthy ledger id and no import call rejects — an
`importTransactions` call is performed for that account with exactly those
(possibly zero) converted transactions. -/
theorem empty_account_payload_still_submitted :
    ∀ (accounts accountMapping : List (String × String)) (txns : List Transaction)
      (g : String → List ActualTransaction → ImportOutcome)
      (idMap : List (String × String)) (src id : String),
      processAccountMapping accounts accountMapping = .ok idMap →
      src ∈ jsObjectKeys accountMapping →
      jsMapGet idMap src = some id → id ≠ "" →
      (∀ i ts, (g i ts).isThrows = false) →
      (id, (txns.filter (fun t => t.account == src)).map convertTransaction) ∈
        (actualSyncRun accounts accountMapping txns g).calls := by
  intro accounts mapping txns g idMap src id hmap hsrc hid hne hg
  have hline : (⟨src, (txns.filter (fun t => t.account == src)).map convertTransaction⟩ :
      ActualAccountTransactions) ∈ importTransactionsLines mapping txns := by
    unfold importTransactionsLines
    exact List.mem_map.mpr ⟨(src, txns.filter (fun t => t.account == src)),
      group_mem_of_names hsrc, rfl⟩
  unfold actualSyncRun nodeJsMain
  rw [hmap]
  dsimp only
  rw [processTransactionsRun_no_throw _ _ hg]
  apply List.mem_filterMap.mpr
  refine ⟨_, hline, ?_⟩
  simp [hid, hne]

/-- Claim C10 witness: an empty batch with one mapped account still produces
the import call for that account with an empty record list. -/
theorem empty_account_payload_still_submitted_witness :
    (processAccountMapping [("A", "idA")] [("src", "A")] = .ok [("src", "idA")] ∧
      "src" ∈ jsObjectKeys [("src", "A")] ∧
      jsMapGet [("src", "idA")] "src" = some "idA") ∧
    ("idA", (([] : List Transaction).filter (fun t => t.account == "src")).map
        convertTransaction) ∈
      (actualSyncRun [("A", "idA")] [("src", "A")] [] (fun _ _ => .ok false)).calls :=
  ⟨⟨by with_unfolding_all rfl, by decide, by rfl⟩,
   empty_account_payload_still_submitted [("A", "idA")] [("src", "A")] []
     (fun _ _ => .ok false) [("src", "idA")] "src" "idA"
     (by with_unfolding_all rfl) (by decide) (by rfl) (by decide) (fun _ _ => rfl)⟩
